import Mathlib

/-!
Shallow embedding of `misc/imgconvnets.py` (class `ImgConvNets`) and proofs
about it.  Python floats are modelled as rationals, ndarrays of rows as
lists, and the TensorFlow graph / session calls as symbolic events.
-/

namespace ImgConvNets

/-! ## The learning-rate schedule (`_get_learning_rate`, lines 411-429) -/

/-- Embeds `ImgConvNets._get_learning_rate`: when `lr_adaptive` is false the
configured `learning_rate` is returned unchanged, otherwise a threshold
cascade on `last_accu` picks the rate. -/
def getLearningRate (lr_adaptive : Bool) (learning_rate last_accu : ℚ) : ℚ :=
  if lr_adaptive = false then learning_rate
  else if last_accu ≥ 99.92 then 9.2e-5
  else if last_accu ≥ 99.84 then 1e-4
  else if last_accu ≥ 99.76 then 1.2e-4
  else if last_accu ≥ 99.68 then 1.6e-4
  else if last_accu ≥ 99.60 then 2e-4
  else if last_accu ≥ 99.50 then 2.4e-4
  else if last_accu ≥ 99.00 then 3.2e-4
  else 4e-4

/-- The (threshold, rate) table in the order the spec lists it. -/
def specLrTable : List (ℚ × ℚ) :=
  [(99.92, 9.2e-5), (99.84, 1e-4), (99.76, 1.2e-4), (99.68, 1.6e-4),
   (99.60, 2e-4), (99.50, 2.4e-4), (99.00, 3.2e-4)]

/-- First-match lookup through a threshold table, defaulting to `4e-4`. -/
def firstMatch (accu : ℚ) : List (ℚ × ℚ) → ℚ
  | [] => 4e-4
  | (t, r) :: rest => if accu ≥ t then r else firstMatch accu rest

/-- The learning-rate function exactly as the spec sentence describes it:
each threshold tested in order, first match wins, `learning_rate` returned
unchanged when `lr_adaptive` is false. -/
def specLearningRate (lr_adaptive : Bool) (learning_rate last_accu : ℚ) : ℚ :=
  if lr_adaptive = false then learning_rate
  else firstMatch last_accu specLrTable

/-! ## Cyclic batch extraction (`_get_next_batch`, lines 397-409) -/

/-- Embeds `ImgConvNets._get_next_batch`.  `data_set` is the list of rows,
`batch_size` is `self.batch_size`.  Python's `data_set[start:stop]` is
`(data_set.drop start).take (stop - start)`, `data_set[start:]` is
`data_set.drop start`, and `data_set[:stop]` is `data_set.take stop`. -/
def getNextBatch {α : Type} (batch_size : ℕ) (data_set : List α)
    (start_index : ℕ) : List α :=
  let cnt := data_set.length
  let start := if start_index ≥ cnt then start_index % cnt else start_index
  let stop := start + batch_size
  if stop < cnt then (data_set.drop start).take (stop - start)
  else (data_set.drop start) ++ data_set.take (stop % cnt)

theorem getNextBatch_eq_rotate_take {α : Type} (data_set : List α)
    (batch_size start_index : ℕ) (h1 : 1 ≤ batch_size)
    (h2 : batch_size ≤ data_set.length) :
    getNextBatch batch_size data_set start_index =
      (data_set.rotate start_index).take batch_size := by
  have hcnt : 0 < data_set.length := lt_of_lt_of_le h1 h2
  rw [List.rotate_eq_drop_append_take_mod]
  simp only [getNextBatch]
  have hstart : (if start_index ≥ data_set.length
      then start_index % data_set.length else start_index)
      = start_index % data_set.length := by
    split
    · rfl
    · exact (Nat.mod_eq_of_lt (by omega)).symm
  rw [hstart]
  set s := start_index % data_set.length with hs
  have hslt : s < data_set.length := Nat.mod_lt _ hcnt
  rw [List.take_append_eq_append_take, List.length_drop]
  by_cases h : s + batch_size < data_set.length
  · rw [if_pos h]
    have hz : batch_size - (data_set.length - s) = 0 := by omega
    have hb : s + batch_size - s = batch_size := by omega
    rw [hz, hb, List.take_zero, List.append_nil]
  · rw [if_neg h]
    have hmod : (s + batch_size) % data_set.length
        = s + batch_size - data_set.length := by
      rw [Nat.mod_eq_sub_mod (by omega), Nat.mod_eq_of_lt (by omega)]
    have hdrop : (data_set.drop s).take batch_size = data_set.drop s :=
      List.take_of_length_le (by rw [List.length_drop]; omega)
    have hmin : (batch_size - (data_set.length - s)) ⊓ s
        = s + batch_size - data_set.length := by
      rw [inf_eq_min]; omega
    rw [hmod, hdrop, List.take_take, hmin]

/-- C1: for every `last_accu`, `_get_learning_rate` equals the reference
piecewise function of the spec: `learning_rate` unchanged when
`lr_adaptive` is false, otherwise the first matching threshold of the
cascade 99.92 / 99.84 / 99.76 / 99.68 / 99.60 / 99.50 / 99.00 picks the
rate, defaulting to `4e-4`. -/
theorem getLearningRate_eq_spec (lr_adaptive : Bool)
    (learning_rate last_accu : ℚ) :
    getLearningRate lr_adaptive learning_rate last_accu
      = specLearningRate lr_adaptive learning_rate last_accu := rfl

set_option maxHeartbeats 2000000 in
/-- C7: with `lr_adaptive` true, `_get_learning_rate` is monotonically
non-increasing in `last_accu`, and every returned value lies in
`[9.2e-5, 4e-4]`. -/
theorem getLearningRate_antitone_and_bounded :
    (∀ (lr a b : ℚ), a ≤ b →
      getLearningRate true lr b ≤ getLearningRate true lr a)
    ∧ (∀ (lr a : ℚ), 9.2e-5 ≤ getLearningRate true lr a
        ∧ getLearningRate true lr a ≤ 4e-4) := by
  constructor
  · intro lr a b hab
    simp only [getLearningRate, Bool.true_eq_false, if_false]
    split_ifs <;> linarith
  · intro lr a
    simp only [getLearningRate, Bool.true_eq_false, if_false]
    constructor <;> split_ifs <;> norm_num

theorem getLearningRate_antitone_and_bounded_witness :
    getLearningRate true 0 100 ≤ getLearningRate true 0 99
    ∧ 9.2e-5 ≤ getLearningRate true 0 50 :=
  ⟨getLearningRate_antitone_and_bounded.1 0 99 100 (by norm_num),
   (getLearningRate_antitone_and_bounded.2 0 50).1⟩

/-- C2: for a data set of at least one row, a batch size between 1 and the
row count, and any start index, `_get_next_batch` returns exactly
`batch_size` rows, namely the rows at indices
`start_index % cnt, start_index % cnt + 1, ...` taken cyclically, each
row unmodified. -/
theorem getNextBatch_cyclic {α : Type} (data_set : List α)
    (batch_size start_index : ℕ) (h1 : 1 ≤ batch_size)
    (h2 : batch_size ≤ data_set.length) :
    (getNextBatch batch_size data_set start_index).length = batch_size
    ∧ ∀ i, i < batch_size →
        (getNextBatch batch_size data_set start_index)[i]?
          = data_set[(start_index + i) % data_set.length]? := by
  rw [getNextBatch_eq_rotate_take data_set batch_size start_index h1 h2]
  constructor
  · rw [List.length_take, List.length_rotate]; omega
  · intro i hi
    rw [List.getElem?_take_of_lt hi,
      List.getElem?_rotate (by omega : i < data_set.length),
      Nat.add_comm i start_index]

theorem getNextBatch_cyclic_witness :
    (getNextBatch 2 ([10, 20, 30] : List ℕ) 4).length = 2
    ∧ (getNextBatch 2 ([10, 20, 30] : List ℕ) 4)[1]?
        = ([10, 20, 30] : List ℕ)[(4 + 1) % ([10, 20, 30] : List ℕ).length]? :=
  ⟨(getNextBatch_cyclic [10, 20, 30] 2 4 (by decide) (by decide)).1,
   (getNextBatch_cyclic [10, 20, 30] 2 4 (by decide) (by decide)).2 1 (by decide)⟩

/-! ## Model selection (`__init__` line 33, `train` lines 76-81) -/

/-- The three graph builders `train` can dispatch to. -/
inductive GraphKind where
  | stcnn
  | dcnn
  | basic
deriving DecidableEq

/-- Embeds the constructor's
`assert model == 'BASIC' or model == 'DCNN' or model == 'STCNN'`. -/
def initAccepts (model : String) : Bool :=
  model == "BASIC" || model == "DCNN" || model == "STCNN"

/-- Embeds the dispatch in `train` (lines 76-81): `STCNN` and `DCNN` get
their dedicated builders, everything else falls to the basic builder. -/
def selectGraph (model : String) : GraphKind :=
  if model == "STCNN" then GraphKind.stcnn
  else if model == "DCNN" then GraphKind.dcnn
  else GraphKind.basic

/-- C3: the constructor accepts exactly the model names `BASIC`, `DCNN`
and `STCNN` (the assertion fails for every other string), and `train`
dispatches `STCNN` to the spatial-transformer builder, `DCNN` to the
factorized-convolution builder, and the remaining accepted name — only
`BASIC` — to the basic builder. -/
theorem initAccepts_iff_and_dispatch :
    (∀ model : String, initAccepts model = true ↔
      (model = "BASIC" ∨ model = "DCNN" ∨ model = "STCNN"))
    ∧ selectGraph "STCNN" = GraphKind.stcnn
    ∧ selectGraph "DCNN" = GraphKind.dcnn
    ∧ selectGraph "BASIC" = GraphKind.basic
    ∧ (∀ model : String, initAccepts model = true →
        selectGraph model = GraphKind.basic → model = "BASIC") := by
  refine ⟨?_, by decide, by decide, by decide, ?_⟩
  · intro model
    simp [initAccepts, or_assoc]
  · intro model hm hsel
    simp [initAccepts, or_assoc] at hm
    rcases hm with h | h | h
    · exact h
    · rw [h] at hsel
      simp [selectGraph] at hsel
    · rw [h] at hsel
      simp [selectGraph] at hsel

theorem initAccepts_iff_and_dispatch_witness :
    initAccepts "DCNN" = true ∧ "BASIC" = "BASIC" :=
  ⟨(initAccepts_iff_and_dispatch.1 "DCNN").2 (Or.inr (Or.inl rfl)),
   initAccepts_iff_and_dispatch.2.2.2.2 "BASIC" (by decide) (by decide)⟩

/-! ## The three inference-graph builders (lines 145-371)

Each builder is modelled as the ordered list of its layers; the spatial
transformer module of the STCNN builder is abstracted to a single layer
recording the initial value of its transform bias `b_fc_loc2`. -/

/-- One layer of an inference graph. -/
inductive Layer where
  | transformer (locBiasInit : List ℚ)
  | conv (kh kw inChannels outChannels : ℕ)
  | maxPool2x2
  | fullyConnected (inDim outDim : ℕ)
  | dropout
deriving DecidableEq

def Layer.isTransformerLayer : Layer → Bool
  | .transformer _ => true
  | _ => false

def Layer.isMaxPool : Layer → Bool
  | .maxPool2x2 => true
  | _ => false

/-- The kernel heights and widths of the convolution layers, in order. -/
def convKernels (layers : List Layer) : List (ℕ × ℕ) :=
  layers.filterMap fun l => match l with
    | .conv kh kw _ _ => some (kh, kw)
    | _ => none

/-- The layers before the first 2x2 max-pool (the first conv block). -/
def convBlock1 (layers : List Layer) : List Layer :=
  layers.takeWhile fun l => !l.isMaxPool

/-- The layers between the first and the second 2x2 max-pool (the second
conv block). -/
def convBlock2 (layers : List Layer) : List Layer :=
  (((layers.dropWhile fun l => !l.isMaxPool).drop 1).takeWhile
    fun l => !l.isMaxPool)

/-- Embeds `_build_inference_graph_stcnn` (lines 145-226): the spatial
transformer — with `b_fc_loc2` initialized to the flattened identity
transform `[[1,0,0],[0,1,0]]` — is applied to the reshaped images, then
two 3x3-conv blocks, a fully connected layer, dropout, and the readout. -/
def buildInferenceGraphStcnn (img_height img_width class_count : ℕ) :
    List Layer :=
  [Layer.transformer [1, 0, 0, 0, 1, 0],
   Layer.conv 3 3 1 32, Layer.conv 3 3 32 32, Layer.maxPool2x2,
   Layer.conv 3 3 32 64, Layer.conv 3 3 64 64, Layer.maxPool2x2,
   Layer.fullyConnected ((img_height / 4) * (img_width / 4) * 64) 1024,
   Layer.dropout,
   Layer.fullyConnected 1024 class_count]

/-- Embeds `_build_inference_graph_dcnn` (lines 228-311): two conv blocks
of factorized convolutions (3x3, 1x3, 3x1, 3x3 each), two fully connected
layers, dropout, and the readout; no transformer. -/
def buildInferenceGraphDcnn (img_height img_width class_count : ℕ) :
    List Layer :=
  [Layer.conv 3 3 1 32, Layer.conv 1 3 32 32,
   Layer.conv 3 1 32 32, Layer.conv 3 3 32 32, Layer.maxPool2x2,
   Layer.conv 3 3 32 64, Layer.conv 1 3 64 64,
   Layer.conv 3 1 64 64, Layer.conv 3 3 64 64, Layer.maxPool2x2,
   Layer.fullyConnected ((img_height / 4) * (img_width / 4) * 64) 1024,
   Layer.fullyConnected 1024 1024,
   Layer.dropout,
   Layer.fullyConnected 1024 class_count]

/-- Embeds `_build_inference_graph_basic` (lines 313-371): two 3x3-conv
blocks, a fully connected layer, dropout, and the readout; no
transformer. -/
def buildInferenceGraphBasic (img_height img_width class_count : ℕ) :
    List Layer :=
  [Layer.conv 3 3 1 32, Layer.conv 3 3 32 32, Layer.maxPool2x2,
   Layer.conv 3 3 32 64, Layer.conv 3 3 64 64, Layer.maxPool2x2,
   Layer.fullyConnected ((img_height / 4) * (img_width / 4) * 64) 1024,
   Layer.dropout,
   Layer.fullyConnected 1024 class_count]

/-- C8: the STCNN builder applies the spatial transformer (bias
initialized to the identity transform) to the input before the first
convolution; the DCNN builder has no transformer and uses 1x3 and 3x1
kernels interleaved with 3x3 kernels in both conv blocks; the basic
builder has no transformer and uses only 3x3 kernels. -/
theorem builders_match_architectures (h w c : ℕ) :
    (buildInferenceGraphStcnn h w c).head? =
        some (Layer.transformer [1, 0, 0, 0, 1, 0])
    ∧ ((buildInferenceGraphStcnn h w c).drop 1).head? =
        some (Layer.conv 3 3 1 32)
    ∧ (buildInferenceGraphDcnn h w c).all
        (fun l => !l.isTransformerLayer) = true
    ∧ convKernels (convBlock1 (buildInferenceGraphDcnn h w c))
        = [(3, 3), (1, 3), (3, 1), (3, 3)]
    ∧ convKernels (convBlock2 (buildInferenceGraphDcnn h w c))
        = [(3, 3), (1, 3), (3, 1), (3, 3)]
    ∧ (buildInferenceGraphBasic h w c).all
        (fun l => !l.isTransformerLayer) = true
    ∧ convKernels (buildInferenceGraphBasic h w c)
        = [(3, 3), (3, 3), (3, 3), (3, 3)] :=
  ⟨rfl, rfl, rfl, rfl, rfl, rfl, rfl⟩

/-! ## Collections and prediction (`train` lines 88-90, `predict`
lines 445-461) -/

/-- A tensor remembered through the collection mechanism. -/
inductive TensorId where
  | images
  | keepProb
  | logits
deriving DecidableEq

/-- The collection entries `train` registers (lines 88-90): each key is
`model_scope` concatenated with the suffix. -/
def trainCollections (model_scope : String) : List (String × TensorId) :=
  [(model_scope ++ "images", TensorId.images),
   (model_scope ++ "keep_prob", TensorId.keepProb),
   (model_scope ++ "logits", TensorId.logits)]

/-- Models `tf.get_collection key`: every entry registered under `key`, in
order. -/
def getCollection (colls : List (String × TensorId)) (key : String) :
    List TensorId :=
  (colls.filter fun p => p.1 == key).map Prod.snd

/-- The symbolic expression `predict` evaluates. -/
inductive PredExpr where
  | tensor (t : TensorId)
  | softmax (e : PredExpr)
  | topK (k : ℕ) (e : PredExpr)
deriving DecidableEq

/-- What one `predict` call runs: the op it evaluates, the placeholders
it feeds, and the constant fed for the keep probability. -/
structure PredictRun where
  evalOp : PredExpr
  imagesFeedTarget : TensorId
  keepProbTarget : TensorId
  keepProbFeed : ℚ
deriving DecidableEq

/-- Embeds `ImgConvNets.predict` (lines 445-461) on a restored graph whose
collections are `colls`: take element 0 of the collections keyed
`model_scope + "logits"`, `+ "images"` and `+ "keep_prob"`, evaluate
`top_k(softmax(logits), k)` feeding the images placeholder with the input
and the keep probability with `1.0`.  `none` models the index error raised
when a collection is empty. -/
def predict (colls : List (String × TensorId)) (model_scope : String)
    (k : ℕ) : Option PredictRun :=
  match getCollection colls (model_scope ++ "logits") with
  | lg :: _ =>
    match getCollection colls (model_scope ++ "images") with
    | im :: _ =>
      match getCollection colls (model_scope ++ "keep_prob") with
      | kp :: _ =>
        some ⟨PredExpr.topK k (PredExpr.softmax (PredExpr.tensor lg)),
              im, kp, 1⟩
      | [] => none
    | [] => none
  | [] => none

theorem string_append_right_cancel (s a b : String) (h : s ++ a = s ++ b) :
    a = b := by
  have hd := congrArg String.data h
  rw [String.data_append, String.data_append] at hd
  have h2 := List.append_cancel_left hd
  cases a
  cases b
  simp_all

/-- C6: on the collections registered by `train`, `predict` finds the
first element of each of the three keys `train` used, and runs
`top_k(softmax(logits), k)` feeding the images placeholder and the keep
probability `1.0`. -/
theorem predict_restores_train_tensors (model_scope : String) (k : ℕ) :
    predict (trainCollections model_scope) model_scope k
      = some ⟨PredExpr.topK k (PredExpr.softmax (PredExpr.tensor TensorId.logits)),
              TensorId.images, TensorId.keepProb, 1⟩ := by
  have key_ne : ∀ a b : String, a ≠ b →
      (model_scope ++ a == model_scope ++ b) = false := by
    intro a b hab
    rw [beq_eq_false_iff_ne]
    exact fun h => hab (string_append_right_cancel _ _ _ h)
  have e1 := key_ne "images" "logits" (by decide)
  have e2 := key_ne "keep_prob" "logits" (by decide)
  have e3 := key_ne "keep_prob" "images" (by decide)
  have e4 := key_ne "logits" "images" (by decide)
  have e5 := key_ne "images" "keep_prob" (by decide)
  have e6 := key_ne "logits" "keep_prob" (by decide)
  simp [predict, trainCollections, getCollection, List.filter_cons,
    e1, e2, e3, e4, e5, e6]

/-! ## The training loop (`train`, lines 46-143) as an event trace -/

/-- The constructor parameters of `ImgConvNets` that `train` reads. -/
structure TrainConfig where
  model : String
  model_scope : String
  img_height : ℕ
  img_width : ℕ
  class_count : ℕ
  keep_prob : ℚ
  learning_rate : ℚ
  lr_adaptive : Bool
  batch_size : ℕ
  num_epoches : ℕ
deriving DecidableEq

/-- Embeds `math.ceil(train_set.shape[0] / self.batch_size)` (line 106). -/
def epochStepCount (rows batch_size : ℕ) : ℕ :=
  (rows + batch_size - 1) / batch_size

/-- Whether `saver.save` was called with `global_step=epoch`
(line 129) or without it (line 131). -/
inductive SaveKind where
  | withGlobalStep
  | plain
deriving DecidableEq

/-- An observable action of `train`. -/
inductive TrainEvent where
  | valueError
  | buildGraph (kind : GraphKind)
  | optStep (epoch step : ℕ) (lr : ℚ)
  | save (epoch : ℕ) (kind : SaveKind)
  | epochEnd (epoch : ℕ) (mean : ℚ)
deriving DecidableEq

def TrainEvent.isOptStep : TrainEvent → Bool
  | .optStep _ _ _ => true
  | _ => false

def TrainEvent.isOptStepOf (e : ℕ) : TrainEvent → Bool
  | .optStep e' _ _ => e' == e
  | _ => false

def TrainEvent.isSave : TrainEvent → Bool
  | .save _ _ => true
  | _ => false

def TrainEvent.isEpochEnd : TrainEvent → Bool
  | .epochEnd _ _ => true
  | _ => false

/-- Embeds `sum(accu_list)*100/len(accu_list)` for one epoch (line 127), where
`accu e s` is the accuracy `sess.run` reports for step `s` of epoch `e`
and `accu_list` holds the epoch's `epoch_steps` values. -/
def meanAccu (accu : ℕ → ℕ → ℚ) (epoch_steps : ℕ) (e : ℕ) : ℚ :=
  ((List.range epoch_steps).map (accu e)).sum * 100 / epoch_steps

/-- The checkpoint decision at the end of one epoch (lines 128-131). -/
def saveDecision (mean_accu last_accu : ℚ) (epoch num_epoches : ℕ) :
    Option SaveKind :=
  if mean_accu ≥ 99.68 ∧ mean_accu > last_accu then
    some SaveKind.withGlobalStep
  else if epoch = num_epoches - 1 then some SaveKind.plain
  else none

/-- The epoch loop of `train` (lines 107-143) as the list of events it
emits: per epoch, one `optStep` per inner-loop step with the learning
rate chosen from `last_accu`, the checkpoint decision, the epoch summary,
and — unless the mean accuracy reached `99.99` — the next epoch.  `fuel`
is the number of epochs `range(1, num_epoches+1)` still has. -/
def runEpochs (cfg : TrainConfig) (epoch_steps : ℕ) (accu : ℕ → ℕ → ℚ) :
    ℕ → ℕ → ℚ → List TrainEvent
  | 0, _, _ => []
  | fuel + 1, epoch, last_accu =>
    ((List.range epoch_steps).map fun s =>
        TrainEvent.optStep epoch s
          (getLearningRate cfg.lr_adaptive cfg.learning_rate last_accu))
      ++ ((saveDecision (meanAccu accu epoch_steps epoch) last_accu epoch
            cfg.num_epoches).map (TrainEvent.save epoch)).toList
      ++ [TrainEvent.epochEnd epoch (meanAccu accu epoch_steps epoch)]
      ++ (if meanAccu accu epoch_steps epoch ≥ 99.99 then []
          else runEpochs cfg epoch_steps accu fuel (epoch + 1)
                 (meanAccu accu epoch_steps epoch))

/-- Embeds `ImgConvNets.train` as its event trace: the shape check
(lines 59-62) raises before anything else; otherwise the graph is built
(lines 66-94) and the epoch loop runs starting at epoch 1 with
`last_accu = 0.0`. -/
def train (cfg : TrainConfig) (rows cols : ℕ) (accu : ℕ → ℕ → ℚ) :
    List TrainEvent :=
  if cols ≠ cfg.img_height * cfg.img_width then [TrainEvent.valueError]
  else TrainEvent.buildGraph (selectGraph cfg.model)
    :: runEpochs cfg (epochStepCount rows cfg.batch_size) accu
         cfg.num_epoches 1 0

theorem valueError_not_mem_runEpochs (cfg : TrainConfig) (es : ℕ)
    (accu : ℕ → ℕ → ℚ) :
    ∀ (fuel e0 : ℕ) (la : ℚ),
      TrainEvent.valueError ∉ runEpochs cfg es accu fuel e0 la := by
  intro fuel
  induction fuel with
  | zero => intro e0 la h; simp [runEpochs] at h
  | succ n ih =>
    intro e0 la h
    simp only [runEpochs, List.mem_append] at h
    rcases h with ((h | h) | h) | h
    · simp only [List.mem_map] at h
      rcases h with ⟨s, _, h⟩
      exact TrainEvent.noConfusion h
    · cases hsd : saveDecision (meanAccu accu es e0) la e0 cfg.num_epoches with
      | none => rw [hsd] at h; simp at h
      | some k => rw [hsd] at h; simp at h
    · simp only [List.mem_singleton] at h
      exact TrainEvent.noConfusion h
    · split at h
      · simp at h
      · exact ih _ _ h

/-- C9: `train` raises `ValueError` exactly when the column count of the
image features differs from `img_height * img_width`, and on that error
path nothing else is observable: no graph construction, session run or
checkpoint write precedes the raise. -/
theorem train_valueError_iff (cfg : TrainConfig) (rows cols : ℕ)
    (accu : ℕ → ℕ → ℚ) :
    (TrainEvent.valueError ∈ train cfg rows cols accu ↔
      cols ≠ cfg.img_height * cfg.img_width)
    ∧ (cols ≠ cfg.img_height * cfg.img_width →
        train cfg rows cols accu = [TrainEvent.valueError]) := by
  refine ⟨⟨?_, ?_⟩, ?_⟩
  · intro hmem
    by_contra hc
    rw [train, if_neg (not_not_intro hc)] at hmem
    rcases List.mem_cons.1 hmem with h | h
    · exact TrainEvent.noConfusion h
    · exact valueError_not_mem_runEpochs cfg _ accu _ _ _ h
  · intro h
    rw [train, if_pos h]
    exact List.mem_singleton.2 rfl
  · intro h
    rw [train, if_pos h]

theorem train_valueError_iff_witness :
    train ⟨"BASIC", "s", 2, 2, 3, 1/2, 1/10000, true, 2, 3⟩ 1 5 (fun _ _ => 0)
      = [TrainEvent.valueError] :=
  (train_valueError_iff ⟨"BASIC", "s", 2, 2, 3, 1/2, 1/10000, true, 2, 3⟩ 1 5
    (fun _ _ => 0)).2 (by decide)

theorem stepsList_filter_isOptStep (es e0 : ℕ) (lr : ℚ) :
    ((List.range es).map fun s => TrainEvent.optStep e0 s lr).filter
      TrainEvent.isOptStep
      = (List.range es).map fun s => TrainEvent.optStep e0 s lr :=
  List.filter_eq_self.2 fun a ha => by
    rcases List.mem_map.1 ha with ⟨s, _, rfl⟩
    rfl

theorem stepsList_filter_isOptStepOf_self (es e0 : ℕ) (lr : ℚ) :
    ((List.range es).map fun s => TrainEvent.optStep e0 s lr).filter
      (TrainEvent.isOptStepOf e0)
      = (List.range es).map fun s => TrainEvent.optStep e0 s lr :=
  List.filter_eq_self.2 fun a ha => by
    rcases List.mem_map.1 ha with ⟨s, _, rfl⟩
    simp [TrainEvent.isOptStepOf]

theorem stepsList_filter_isOptStepOf_ne (es e0 e : ℕ) (lr : ℚ)
    (h : e0 ≠ e) :
    ((List.range es).map fun s => TrainEvent.optStep e0 s lr).filter
      (TrainEvent.isOptStepOf e) = [] :=
  List.filter_eq_nil_iff.2 fun a ha => by
    rcases List.mem_map.1 ha with ⟨s, _, rfl⟩
    simp [TrainEvent.isOptStepOf, h]

theorem saveList_filter_false (o : Option SaveKind) (e0 : ℕ)
    (p : TrainEvent → Bool) (hp : ∀ k, p (TrainEvent.save e0 k) = false) :
    ((o.map (TrainEvent.save e0)).toList).filter p = [] := by
  cases o with
  | none => rfl
  | some k => simp [List.filter_cons, hp]

theorem singleton_filter_of_false {p : TrainEvent → Bool} {a : TrainEvent}
    (hpa : p a = false) : [a].filter p = [] := by
  simp [List.filter_cons, hpa]

theorem optStep_mem_runEpochs_le (cfg : TrainConfig) (es : ℕ)
    (accu : ℕ → ℕ → ℚ) :
    ∀ (fuel e0 : ℕ) (la : ℚ) (e s : ℕ) (lr : ℚ),
      TrainEvent.optStep e s lr ∈ runEpochs cfg es accu fuel e0 la →
      e0 ≤ e := by
  intro fuel
  induction fuel with
  | zero => intro e0 la e s lr h; simp [runEpochs] at h
  | succ n ih =>
    intro e0 la e s lr h
    simp only [runEpochs, List.mem_append] at h
    rcases h with ((h | h) | h) | h
    · obtain ⟨s', _, heq⟩ := List.mem_map.1 h
      cases heq
      exact le_refl e0
    · cases hsd : saveDecision (meanAccu accu es e0) la e0 cfg.num_epoches with
      | none => rw [hsd] at h; simp at h
      | some k => rw [hsd] at h; simp at h
    · simp only [List.mem_singleton] at h
      exact TrainEvent.noConfusion h
    · split at h
      · simp at h
      · exact Nat.le_of_succ_le (ih _ _ _ _ _ h)

theorem epochEnd_mem_runEpochs (cfg : TrainConfig) (es : ℕ)
    (accu : ℕ → ℕ → ℚ) :
    ∀ (fuel e0 : ℕ) (la : ℚ) (e : ℕ) (m : ℚ),
      TrainEvent.epochEnd e m ∈ runEpochs cfg es accu fuel e0 la →
      e0 ≤ e ∧ m = meanAccu accu es e := by
  intro fuel
  induction fuel with
  | zero => intro e0 la e m h; simp [runEpochs] at h
  | succ n ih =>
    intro e0 la e m h
    simp only [runEpochs, List.mem_append] at h
    rcases h with ((h | h) | h) | h
    · obtain ⟨s', _, heq⟩ := List.mem_map.1 h
      exact TrainEvent.noConfusion heq
    · cases hsd : saveDecision (meanAccu accu es e0) la e0 cfg.num_epoches with
      | none => rw [hsd] at h; simp at h
      | some k => rw [hsd] at h; simp at h
    · simp only [List.mem_singleton] at h
      cases h
      exact ⟨le_refl e0, rfl⟩
    · split at h
      · simp at h
      · obtain ⟨h1, h2⟩ := ih _ _ _ _ h
        exact ⟨Nat.le_of_succ_le h1, h2⟩

theorem optStep_count_runEpochs_le (cfg : TrainConfig) (es : ℕ)
    (accu : ℕ → ℕ → ℚ) :
    ∀ (fuel e0 : ℕ) (la : ℚ),
      ((runEpochs cfg es accu fuel e0 la).filter
        TrainEvent.isOptStep).length ≤ fuel * es := by
  intro fuel
  induction fuel with
  | zero => intro e0 la; simp [runEpochs]
  | succ n ih =>
    intro e0 la
    simp only [runEpochs, List.filter_append, List.length_append]
    rw [stepsList_filter_isOptStep,
      saveList_filter_false _ _ _ (fun k => rfl),
      singleton_filter_of_false (rfl :
        TrainEvent.isOptStep (TrainEvent.epochEnd e0 (meanAccu accu es e0))
          = false)]
    have htail : ((if meanAccu accu es e0 ≥ 99.99 then []
        else runEpochs cfg es accu n (e0 + 1)
          (meanAccu accu es e0)).filter TrainEvent.isOptStep).length
        ≤ n * es := by
      split
      · simp
      · exact ih _ _
    have hmul : (n + 1) * es = n * es + es := by ring
    simp only [List.length_map, List.length_range, List.length_nil]
    omega

theorem epochEnd_count_runEpochs_le (cfg : TrainConfig) (es : ℕ)
    (accu : ℕ → ℕ → ℚ) :
    ∀ (fuel e0 : ℕ) (la : ℚ),
      ((runEpochs cfg es accu fuel e0 la).filter
        TrainEvent.isEpochEnd).length ≤ fuel := by
  intro fuel
  induction fuel with
  | zero => intro e0 la; simp [runEpochs]
  | succ n ih =>
    intro e0 la
    simp only [runEpochs, List.filter_append, List.length_append]
    rw [List.filter_eq_nil_iff.2 (fun a ha => by
        rcases List.mem_map.1 ha with ⟨s, _, rfl⟩
        simp [TrainEvent.isEpochEnd]),
      saveList_filter_false _ _ _ (fun k => rfl)]
    have htail : ((if meanAccu accu es e0 ≥ 99.99 then []
        else runEpochs cfg es accu n (e0 + 1)
          (meanAccu accu es e0)).filter TrainEvent.isEpochEnd).length
        ≤ n := by
      split
      · simp
      · exact ih _ _
    simp only [List.length_nil, List.filter_cons, List.filter_nil,
      TrainEvent.isEpochEnd, if_true, List.length_cons]
    omega

theorem runEpochs_filter_isOptStepOf (cfg : TrainConfig) (es : ℕ)
    (accu : ℕ → ℕ → ℚ) :
    ∀ (fuel e0 : ℕ) (la : ℚ) (e : ℕ) (m : ℚ),
      TrainEvent.epochEnd e m ∈ runEpochs cfg es accu fuel e0 la →
      ((runEpochs cfg es accu fuel e0 la).filter
        (TrainEvent.isOptStepOf e)).length = es := by
  intro fuel
  induction fuel with
  | zero => intro e0 la e m h; simp [runEpochs] at h
  | succ n ih =>
    intro e0 la e m h
    by_cases hee : e0 = e
    · subst hee
      simp only [runEpochs, List.filter_append, List.length_append]
      rw [stepsList_filter_isOptStepOf_self,
        saveList_filter_false _ _ _ (fun k => rfl),
        singleton_filter_of_false (rfl :
          TrainEvent.isOptStepOf e0
            (TrainEvent.epochEnd e0 (meanAccu accu es e0)) = false)]
      have htail : ((if meanAccu accu es e0 ≥ 99.99 then []
          else runEpochs cfg es accu n (e0 + 1)
            (meanAccu accu es e0)).filter (TrainEvent.isOptStepOf e0)) = [] := by
        split
        · rfl
        · refine List.filter_eq_nil_iff.2 fun a ha => ?_
          cases a with
          | optStep ea s lr =>
            have hle := optStep_mem_runEpochs_le cfg es accu n (e0 + 1) _
              ea s lr ha
            simp only [TrainEvent.isOptStepOf, beq_iff_eq]
            omega
          | valueError => simp [TrainEvent.isOptStepOf]
          | buildGraph k => simp [TrainEvent.isOptStepOf]
          | save ea k => simp [TrainEvent.isOptStepOf]
          | epochEnd ea ma => simp [TrainEvent.isOptStepOf]
      rw [htail]
      simp
    · simp only [runEpochs, List.mem_append] at h
      rcases h with ((h | h) | h) | h
      · obtain ⟨s', _, heq⟩ := List.mem_map.1 h
        exact TrainEvent.noConfusion heq
      · cases hsd : saveDecision (meanAccu accu es e0) la e0 cfg.num_epoches with
        | none => rw [hsd] at h; simp at h
        | some k => rw [hsd] at h; simp at h
      · simp only [List.mem_singleton] at h
        obtain ⟨he, _⟩ := TrainEvent.epochEnd.inj h
        exact absurd he.symm hee
      · split at h
        · simp at h
        · rename_i hcond
          simp only [runEpochs, List.filter_append, List.length_append]
          rw [stepsList_filter_isOptStepOf_ne _ _ _ _ hee,
            saveList_filter_false _ _ _ (fun k => rfl),
            singleton_filter_of_false (rfl :
              TrainEvent.isOptStepOf e
                (TrainEvent.epochEnd e0 (meanAccu accu es e0)) = false),
            if_neg hcond]
          have := ih _ _ _ _ h
          simp only [List.length_nil]
          omega

theorem runEpochs_early_stop (cfg : TrainConfig) (es : ℕ)
    (accu : ℕ → ℕ → ℚ) :
    ∀ (fuel e0 : ℕ) (la : ℚ) (e : ℕ) (m : ℚ),
      TrainEvent.epochEnd e m ∈ runEpochs cfg es accu fuel e0 la →
      99.99 ≤ m →
      ∀ (e' : ℕ) (m' : ℚ),
        TrainEvent.epochEnd e' m' ∈ runEpochs cfg es accu fuel e0 la →
        e' ≤ e := by
  intro fuel
  induction fuel with
  | zero => intro e0 la e m h; simp [runEpochs] at h
  | succ n ih =>
    intro e0 la e m h hm e' m' h'
    simp only [runEpochs, List.mem_append] at h h'
    rcases h with ((h | h) | h) | h
    · obtain ⟨s', _, heq⟩ := List.mem_map.1 h
      exact TrainEvent.noConfusion heq
    · cases hsd : saveDecision (meanAccu accu es e0) la e0 cfg.num_epoches with
      | none => rw [hsd] at h; simp at h
      | some k => rw [hsd] at h; simp at h
    · simp only [List.mem_singleton] at h
      obtain ⟨he, hm2⟩ := TrainEvent.epochEnd.inj h
      rcases h' with ((h' | h') | h') | h'
      · obtain ⟨s', _, heq⟩ := List.mem_map.1 h'
        exact TrainEvent.noConfusion heq
      · cases hsd : saveDecision (meanAccu accu es e0) la e0 cfg.num_epoches with
        | none => rw [hsd] at h'; simp at h'
        | some k => rw [hsd] at h'; simp at h'
      · simp only [List.mem_singleton] at h'
        obtain ⟨he', _⟩ := TrainEvent.epochEnd.inj h'
        omega
      · rw [if_pos (hm2 ▸ hm)] at h'
        simp at h'
    · split at h
      · simp at h
      · rename_i hcond
        have hge := (epochEnd_mem_runEpochs cfg es accu n (e0 + 1) _ e m h).1
        rcases h' with ((h' | h') | h') | h'
        · obtain ⟨s', _, heq⟩ := List.mem_map.1 h'
          exact TrainEvent.noConfusion heq
        · cases hsd : saveDecision (meanAccu accu es e0) la e0 cfg.num_epoches with
          | none => rw [hsd] at h'; simp at h'
          | some k => rw [hsd] at h'; simp at h'
        · simp only [List.mem_singleton] at h'
          obtain ⟨he', _⟩ := TrainEvent.epochEnd.inj h'
          omega
        · rw [if_neg hcond] at h'
          exact ih _ _ _ _ h hm _ _ h'

theorem filter_cons_of_false {p : TrainEvent → Bool} {a : TrainEvent}
    (l : List TrainEvent) (h : p a = false) :
    (a :: l).filter p = l.filter p := by
  simp [List.filter_cons, h]

/-- C4: `train` executes at most `num_epoches` epochs, every executed
epoch runs exactly `ceil(rows / batch_size)` optimization steps, the loop
stops as soon as an epoch's mean accuracy reaches 99.99, and so at most
`num_epoches * ceil(rows / batch_size)` optimization steps ever run. -/
theorem train_loop_termination (cfg : TrainConfig) (rows cols : ℕ)
    (accu : ℕ → ℕ → ℚ) :
    ((train cfg rows cols accu).filter TrainEvent.isEpochEnd).length
        ≤ cfg.num_epoches
    ∧ ((train cfg rows cols accu).filter TrainEvent.isOptStep).length
        ≤ cfg.num_epoches * epochStepCount rows cfg.batch_size
    ∧ (∀ (e : ℕ) (m : ℚ),
        TrainEvent.epochEnd e m ∈ train cfg rows cols accu →
        ((train cfg rows cols accu).filter
          (TrainEvent.isOptStepOf e)).length
          = epochStepCount rows cfg.batch_size)
    ∧ (∀ (e : ℕ) (m : ℚ),
        TrainEvent.epochEnd e m ∈ train cfg rows cols accu → 99.99 ≤ m →
        ∀ (e' : ℕ) (m' : ℚ),
          TrainEvent.epochEnd e' m' ∈ train cfg rows cols accu →
          e' ≤ e) := by
  by_cases hc : cols ≠ cfg.img_height * cfg.img_width
  · rw [train, if_pos hc]
    refine ⟨by simp [TrainEvent.isEpochEnd], by simp [TrainEvent.isOptStep],
      ?_, ?_⟩
    · intro e m hmem
      simp at hmem
    · intro e m hmem
      simp at hmem
  · rw [train, if_neg hc]
    refine ⟨?_, ?_, ?_, ?_⟩
    · rw [filter_cons_of_false _ (rfl :
        TrainEvent.isEpochEnd (TrainEvent.buildGraph (selectGraph cfg.model))
          = false)]
      exact epochEnd_count_runEpochs_le cfg _ accu _ _ _
    · rw [filter_cons_of_false _ (rfl :
        TrainEvent.isOptStep (TrainEvent.buildGraph (selectGraph cfg.model))
          = false)]
      exact optStep_count_runEpochs_le cfg _ accu _ _ _
    · intro e m hmem
      rcases List.mem_cons.1 hmem with h | h
      · exact TrainEvent.noConfusion h
      · rw [filter_cons_of_false _ (rfl :
          TrainEvent.isOptStepOf e
            (TrainEvent.buildGraph (selectGraph cfg.model)) = false)]
        exact runEpochs_filter_isOptStepOf cfg _ accu _ _ _ _ _ h
    · intro e m hmem hm e' m' hmem'
      rcases List.mem_cons.1 hmem with h | h
      · exact TrainEvent.noConfusion h
      · rcases List.mem_cons.1 hmem' with h' | h'
        · exact TrainEvent.noConfusion h'
        · exact runEpochs_early_stop cfg _ accu _ _ _ _ _ h hm _ _ h'

theorem train_loop_termination_witness :
    ((train ⟨"BASIC", "s", 1, 1, 2, 1/2, 1/10000, true, 1, 1⟩ 1 1
        (fun _ _ => 1)).filter (TrainEvent.isOptStepOf 1)).length
      = epochStepCount 1 1
    ∧ (∀ (e' : ℕ) (m' : ℚ),
        TrainEvent.epochEnd e' m' ∈
          train ⟨"BASIC", "s", 1, 1, 2, 1/2, 1/10000, true, 1, 1⟩ 1 1
            (fun _ _ => 1) → e' ≤ 1) := by
  have htrace : train ⟨"BASIC", "s", 1, 1, 2, 1/2, 1/10000, true, 1, 1⟩ 1 1
      (fun _ _ => 1)
      = [TrainEvent.buildGraph GraphKind.basic,
         TrainEvent.optStep 1 0 4e-4,
         TrainEvent.save 1 SaveKind.withGlobalStep,
         TrainEvent.epochEnd 1 100] := by
    norm_num [train, runEpochs, meanAccu, saveDecision, getLearningRate,
      selectGraph, epochStepCount]
    rw [if_neg (by decide : ¬("BASIC" : String) = "STCNN"),
      if_neg (by decide : ¬("BASIC" : String) = "DCNN")]
    refine ⟨rfl, ?_⟩
    rw [List.range_succ, List.range_zero]
    simp
  have hmem : TrainEvent.epochEnd 1 100 ∈
      train ⟨"BASIC", "s", 1, 1, 2, 1/2, 1/10000, true, 1, 1⟩ 1 1
        (fun _ _ => 1) := by
    rw [htrace]
    simp
  exact ⟨(train_loop_termination ⟨"BASIC", "s", 1, 1, 2, 1/2, 1/10000, true,
      1, 1⟩ 1 1 (fun _ _ => 1)).2.2.1 1 100 hmem,
    (train_loop_termination ⟨"BASIC", "s", 1, 1, 2, 1/2, 1/10000, true,
      1, 1⟩ 1 1 (fun _ _ => 1)).2.2.2 1 100 hmem (by norm_num)⟩

theorem runEpochs_filter_isSave_low (cfg : TrainConfig) (es : ℕ)
    (accu : ℕ → ℕ → ℚ)
    (hlow : ∀ e, meanAccu accu es e < 99.68) :
    ∀ (fuel e0 : ℕ) (la : ℚ),
      (runEpochs cfg es accu fuel e0 la).filter TrainEvent.isSave
        = if e0 ≤ cfg.num_epoches - 1 ∧ cfg.num_epoches - 1 < e0 + fuel
          then [TrainEvent.save (cfg.num_epoches - 1) SaveKind.plain]
          else [] := by
  intro fuel
  induction fuel with
  | zero =>
    intro e0 la
    rw [if_neg (by omega)]
    simp [runEpochs]
  | succ n ih =>
    intro e0 la
    simp only [runEpochs, List.filter_append]
    rw [List.filter_eq_nil_iff.2 (fun a ha => by
        rcases List.mem_map.1 ha with ⟨s, _, rfl⟩
        simp [TrainEvent.isSave]),
      singleton_filter_of_false (rfl : TrainEvent.isSave
        (TrainEvent.epochEnd e0 (meanAccu accu es e0)) = false)]
    have hsd : saveDecision (meanAccu accu es e0) la e0 cfg.num_epoches
        = if e0 = cfg.num_epoches - 1 then some SaveKind.plain else none := by
      rw [saveDecision, if_neg ?hne]
      case hne =>
        rintro ⟨hge, _⟩
        exact absurd hge (not_le.2 (hlow e0))
    have hbreak : ¬(meanAccu accu es e0 ≥ 99.99) := by
      have hl := hlow e0
      intro hge
      have : (99.68 : ℚ) < 99.99 := by norm_num
      linarith
    rw [hsd, if_neg hbreak, ih]
    by_cases he : e0 = cfg.num_epoches - 1
    · rw [if_pos he, if_neg (by omega),
        if_pos (⟨le_of_eq he, by omega⟩ :
          e0 ≤ cfg.num_epoches - 1 ∧ cfg.num_epoches - 1 < e0 + (n + 1))]
      simp [TrainEvent.isSave, he]
    · rw [if_neg he]
      by_cases hcond : e0 + 1 ≤ cfg.num_epoches - 1
          ∧ cfg.num_epoches - 1 < e0 + 1 + n
      · rw [if_pos hcond, if_pos (by omega :
          e0 ≤ cfg.num_epoches - 1 ∧ cfg.num_epoches - 1 < e0 + (n + 1))]
        simp
      · rw [if_neg hcond, if_neg (by omega :
          ¬(e0 ≤ cfg.num_epoches - 1 ∧ cfg.num_epoches - 1 < e0 + (n + 1)))]
        simp

/-- C5: a checkpoint is written at the end of an executed epoch `e` iff
the epoch's mean accuracy is at least 99.68 and strictly above the
previous epoch's mean, or `e = num_epoches - 1`; the final epoch
`num_epoches` itself never triggers the unconditional save; and a run
whose per-epoch mean accuracy never reaches 99.68 saves exactly once, at
the penultimate epoch. -/
theorem checkpoint_policy :
    (∀ (mean la : ℚ) (epoch num_epoches : ℕ), 1 ≤ epoch →
      ((saveDecision mean la epoch num_epoches).isSome = true ↔
        ((99.68 ≤ mean ∧ la < mean) ∨ epoch = num_epoches - 1)))
    ∧ (∀ (mean la : ℚ) (n : ℕ), 1 ≤ n →
        saveDecision mean la n n ≠ some SaveKind.plain)
    ∧ (∀ (cfg : TrainConfig) (es : ℕ) (accu : ℕ → ℕ → ℚ),
        (∀ e, meanAccu accu es e < 99.68) → 2 ≤ cfg.num_epoches →
        (runEpochs cfg es accu cfg.num_epoches 1 0).filter
            TrainEvent.isSave
          = [TrainEvent.save (cfg.num_epoches - 1) SaveKind.plain]) := by
  refine ⟨?_, ?_, ?_⟩
  · intro mean la epoch n _
    rw [saveDecision]
    split_ifs with hA hB
    · simp only [Option.isSome_some, true_iff]
      exact Or.inl ⟨hA.1, hA.2⟩
    · simp only [Option.isSome_some, true_iff]
      exact Or.inr hB
    · simp only [Option.isSome_none, Bool.false_eq_true, false_iff]
      rintro (⟨h1, h2⟩ | h)
      · exact hA ⟨h1, h2⟩
      · exact hB h
  · intro mean la n hn
    rw [saveDecision]
    split_ifs with hA hB
    · exact fun h => SaveKind.noConfusion (Option.some.inj h)
    · exact absurd hB (by omega)
    · exact fun h => Option.noConfusion h
  · intro cfg es accu hlow h2
    rw [runEpochs_filter_isSave_low cfg es accu hlow cfg.num_epoches 1 0,
      if_pos (by omega)]

theorem checkpoint_policy_witness :
    (saveDecision 0 0 1 2).isSome = true
    ∧ saveDecision 100 0 3 3 ≠ some SaveKind.plain
    ∧ (runEpochs ⟨"BASIC", "s", 1, 1, 2, 1/2, 1/10000, true, 1, 2⟩ 1
        (fun _ _ => 0) 2 1 0).filter TrainEvent.isSave
      = [TrainEvent.save 1 SaveKind.plain] :=
  ⟨(checkpoint_policy.1 0 0 1 2 (by norm_num)).2 (Or.inr (by norm_num)),
   checkpoint_policy.2.1 100 0 3 (by norm_num),
   checkpoint_policy.2.2 ⟨"BASIC", "s", 1, 1, 2, 1/2, 1/10000, true, 1, 2⟩ 1
     (fun _ _ => 0) (fun e => by norm_num [meanAccu]) (by norm_num)⟩

/-! ## Row permutation and the feature/label split (`train` lines 64 and
111-113) -/

theorem zipWith_append_split (cols : ℕ) :
    ∀ (features labels : List (List ℚ)),
      (∀ f ∈ features, f.length = cols) →
      (List.zipWith (· ++ ·) features labels).map
        (fun r => (r.take cols, r.drop cols)) = features.zip labels := by
  intro features
  induction features with
  | nil => intro labels _; simp
  | cons f fs ih =>
    intro labels hlen
    cases labels with
    | nil => simp
    | cons l ls =>
      simp only [List.zipWith_cons_cons, List.map_cons, List.zip_cons_cons]
      have hf : f.length = cols := hlen f (List.mem_cons_self f fs)
      rw [ih ls (fun g hg => hlen g (List.mem_cons_of_mem f hg))]
      rw [← hf, List.take_left, List.drop_left]

theorem mem_getNextBatch {α : Type} (batch_size start_index : ℕ)
    (data_set : List α) (r : α)
    (h : r ∈ getNextBatch batch_size data_set start_index) :
    r ∈ data_set := by
  simp only [getNextBatch] at h
  split at h
  · split at h
    · exact List.mem_of_mem_drop (List.mem_of_mem_take h)
    · rcases List.mem_append.1 h with h | h
      · exact List.mem_of_mem_drop h
      · exact List.mem_of_mem_take h
  · split at h
    · exact List.mem_of_mem_drop (List.mem_of_mem_take h)
    · rcases List.mem_append.1 h with h | h
      · exact List.mem_of_mem_drop h
      · exact List.mem_of_mem_take h

/-- C10: row-permuting `np.append(img_features, true_labels, axis=1)`
preserves the pairing of feature rows with their labels — splitting every
permuted row at column `cols` yields the same multiset of
(feature-row, label-row) pairs as the input — and every row a batch
extracts is one of the permuted rows, so its split at `cols` is one of
the original pairs. -/
theorem permutation_preserves_pairing
    (features labels train_set : List (List ℚ)) (cols : ℕ)
    (hlen : ∀ f ∈ features, f.length = cols)
    (hperm : train_set.Perm (List.zipWith (· ++ ·) features labels)) :
    (train_set.map fun r => (r.take cols, r.drop cols)).Perm
        (features.zip labels)
    ∧ (∀ (batch_size start_index : ℕ) (r : List ℚ),
        r ∈ getNextBatch batch_size train_set start_index →
        r ∈ train_set)
    ∧ (∀ (batch_size start_index : ℕ) (r : List ℚ),
        r ∈ getNextBatch batch_size train_set start_index →
        (r.take cols, r.drop cols) ∈ features.zip labels) := by
  refine ⟨?_, ?_, ?_⟩
  · have h1 := hperm.map (fun r => (r.take cols, r.drop cols))
    rwa [zipWith_append_split cols features labels hlen] at h1
  · intro batch_size start_index r h
    exact mem_getNextBatch batch_size start_index train_set r h
  · intro batch_size start_index r h
    have hz := hperm.subset
      (mem_getNextBatch batch_size start_index train_set r h)
    have hmap := List.mem_map_of_mem
      (fun r => (r.take cols, r.drop cols)) hz
    rwa [zipWith_append_split cols features labels hlen] at hmap

theorem permutation_preserves_pairing_witness :
    (([[(1 : ℚ), 2, 3]]).map fun r => (r.take 2, r.drop 2)).Perm
        ([[(1 : ℚ), 2]].zip [[(3 : ℚ)]])
    ∧ (([(1 : ℚ), 2, 3].take 2, [(1 : ℚ), 2, 3].drop 2) ∈
        [[(1 : ℚ), 2]].zip [[(3 : ℚ)]]) :=
  ⟨(permutation_preserves_pairing [[1, 2]] [[3]] [[1, 2, 3]] 2 (by simp)
      (List.Perm.refl _)).1,
   (permutation_preserves_pairing [[1, 2]] [[3]] [[1, 2, 3]] 2 (by simp)
      (List.Perm.refl _)).2.2 1 0 [1, 2, 3] (by simp [getNextBatch])⟩

end ImgConvNets
